import Mathlib

/-!
Shallow embedding of the egui-toast crate (src/lib.rs and src/utils/wasm.rs).
Screen coordinates and time points (milliseconds) are modelled as rationals;
the f32/f64 arithmetic of the source is modelled by exact arithmetic.
Side-effecting rendering calls are modelled by returning the produced data
(shape lists, the list of rendered toasts, the persisted context data).
-/

namespace EguiToast

/-- A 2D point, modelling egui Pos2 (also used for Vec2). -/
structure Pos2 where
  x : ℚ
  y : ℚ
deriving DecidableEq

/-- Componentwise minimum of two points, modelling Pos2::min. -/
def posMin (a b : Pos2) : Pos2 := ⟨min a.x b.x, min a.y b.y⟩

/-- A rectangle given by its min (top-left) and max (bottom-right) corners,
modelling egui Rect. -/
structure Rect where
  min : Pos2
  max : Pos2
deriving DecidableEq

/-- egui Rect::from_min_size. -/
def Rect.from_min_size (p : Pos2) (size : Pos2) : Rect :=
  ⟨p, ⟨p.x + size.x, p.y + size.y⟩⟩

/-- egui Rect::from_two_pos: bounding box of the two points. -/
def Rect.from_two_pos (a b : Pos2) : Rect :=
  ⟨⟨Min.min a.x b.x, Min.min a.y b.y⟩, ⟨Max.max a.x b.x, Max.max a.y b.y⟩⟩

/-- egui Rect::size, as a vector. -/
def Rect.size (r : Rect) : Pos2 :=
  ⟨r.max.x - r.min.x, r.max.y - r.min.y⟩

/-- egui Rect::width. -/
def Rect.width (r : Rect) : ℚ := r.max.x - r.min.x

/-- egui Rect::height. -/
def Rect.height (r : Rect) : ℚ := r.max.y - r.min.y

/-- A rectangle is valid (non-degenerate) when min is componentwise at most max. -/
def Rect.isValid (r : Rect) : Prop :=
  r.min.x ≤ r.max.x ∧ r.min.y ≤ r.max.y

/-- The rectangle `inner` lies inside the rectangle `outer`. -/
def Rect.isSubRectOf (inner outer : Rect) : Prop :=
  outer.min.x ≤ inner.min.x ∧ inner.max.x ≤ outer.max.x ∧
  outer.min.y ≤ inner.min.y ∧ inner.max.y ≤ outer.max.y

/-- An RGB color, modelling egui Color32 (alpha is not relevant here). -/
structure Color32 where
  r : ℕ
  g : ℕ
  b : ℕ
deriving DecidableEq

/-- egui Color32::DARK_GREEN. -/
def Color32.DARK_GREEN : Color32 := ⟨0, 100, 0⟩

/-- egui Color32::LIGHT_GRAY. -/
def Color32.LIGHT_GRAY : Color32 := ⟨220, 220, 220⟩

/-- INFO_COLOR from src/lib.rs. -/
def INFO_COLOR : Color32 := ⟨0, 155, 255⟩

/-- WARNING_COLOR from src/lib.rs. -/
def WARNING_COLOR : Color32 := ⟨255, 212, 0⟩

/-- ERROR_COLOR from src/lib.rs. -/
def ERROR_COLOR : Color32 := ⟨255, 32, 0⟩

/-- SUCCESS_COLOR from src/lib.rs. -/
def SUCCESS_COLOR : Color32 := ⟨0, 255, 32⟩

/-- A filled rounded rectangle added to the painter, modelling the
egui::epaint::RectShape values built in add_progress_bar_layer. -/
structure RectShapeM where
  rect : Rect
  rounding : ℚ
  fill : Color32
deriving DecidableEq

/-- The Direction enum of egui. -/
inductive Direction where
  | LeftToRight
  | RightToLeft
  | TopDown
  | BottomUp
deriving DecidableEq

/-- ToastKind from src/lib.rs. -/
inductive ToastKind where
  | Info
  | Warning
  | Error
  | Success
  | Custom (id : ℕ)
deriving DecidableEq

/-- ToastOptions from src/lib.rs. Instants are rational time points in
milliseconds. -/
structure ToastOptions where
  show_icon : Bool
  expires_at : Option ℚ
  created_at : Option ℚ
deriving DecidableEq

/-- Default for ToastOptions from src/lib.rs. -/
def ToastOptions.default : ToastOptions :=
  { show_icon := true, expires_at := none, created_at := none }

/-- ToastOptions::with_duration from src/lib.rs. The two Instant::now calls of
the source are modelled by the single current time `now`; `duration` is a
duration in milliseconds or None. -/
def ToastOptions.with_duration (now : ℚ) (duration : Option ℚ) : ToastOptions :=
  { ToastOptions.default with
    expires_at := duration.map (fun d => now + d),
    created_at := some now }

/-- The From Duration conversion for ToastOptions from src/lib.rs, which calls
with_duration on a present duration. -/
def ToastOptions.fromDuration (now : ℚ) (duration : ℚ) : ToastOptions :=
  ToastOptions.with_duration now (some duration)

/-- Toast from src/lib.rs. -/
structure Toast where
  kind : ToastKind
  text : String
  options : ToastOptions
deriving DecidableEq

/-- Toast::close from src/lib.rs: sets expires_at to the current time. -/
def Toast.close (t : Toast) (now : ℚ) : Toast :=
  { t with options := { t.options with expires_at := some now } }

/-- The retain predicate of Toasts::show (src/lib.rs lines 369-375): a toast is
kept when its expires_at, filtered by being at most now, is None. -/
def retainPred (t : Toast) (now : ℚ) : Bool :=
  (t.options.expires_at.filter (fun expires_at => decide (expires_at ≤ now))).isNone

/-- The pruning pass of one frame over a toast list. -/
def pruneToasts (toasts : List Toast) (now : ℚ) : List Toast :=
  toasts.filter (fun t => retainPred t now)

/-- The remaining-lifetime fraction computed in add_progress_bar_layer
(src/lib.rs lines 438-445): starts at 0.0 and is assigned only when both
expires_at and created_at are present. -/
def remainingTime (options : ToastOptions) (now : ℚ) : ℚ :=
  match options.expires_at, options.created_at with
  | some expires_at, some created_at => (expires_at - now) / (expires_at - created_at)
  | _, _ => 0

/-- add_progress_bar_layer from src/lib.rs lines 431-476, returning the list
of shapes added to the painter: empty when expires_at is None, otherwise the
outline shape followed by the filled progress-bar shape. -/
def add_progress_bar_layer (toast : Toast) (now : ℚ) (rect : Rect)
    (progress_bar_color : Color32) (progress_bar_width : ℚ)
    (progress_bar_outline_color : Color32) : List RectShapeM :=
  if toast.options.expires_at.isNone then []
  else
    let remaining_time := remainingTime toast.options now
    let rounding := progress_bar_width / 2
    [⟨Rect.from_two_pos
        ⟨rect.min.x + 10, rect.max.y - 2 - progress_bar_width⟩
        ⟨rect.max.x - 10, rect.max.y - 2⟩,
      rounding, progress_bar_outline_color⟩,
     ⟨Rect.from_two_pos
        ⟨rect.min.x + 10, rect.max.y - 2 - progress_bar_width⟩
        ⟨rect.max.x - 10 - (rect.width - 20) * (1 - remaining_time), rect.max.y - 2⟩,
      rounding, progress_bar_color⟩]

/-- The Sub Instant implementation of src/utils/wasm.rs lines 70-78: the
difference in milliseconds is asserted non-negative; an assertion failure is
modelled as None. -/
def wasmInstantSub (self other : ℚ) : Option ℚ :=
  if 0 ≤ self - other then some (self - other) else none

/-- The remaining-lifetime fraction as computed on the wasm target, where each
Instant subtraction goes through the asserting Sub of src/utils/wasm.rs:
None when an assertion fails. -/
def wasmRemainingTime (options : ToastOptions) (now : ℚ) : Option ℚ :=
  match options.expires_at, options.created_at with
  | some expires_at, some created_at =>
    (wasmInstantSub expires_at now).bind (fun d1 =>
      (wasmInstantSub expires_at created_at).map (fun d2 => d1 / d2))
  | _, _ => some 0

/-- f32::MAX, the initial value of the next_area_pos fold in Toasts::show. -/
def fMAX : ℚ := (2 ^ 24 - 1) * 2 ^ 104

/-- Toasts from src/lib.rs. The custom-contents map is modelled as an
association list from ToastKind to an abstract renderer identifier. -/
structure Toasts where
  id : String
  anchor : Pos2
  direction : Direction
  align_to_end : Bool
  custom_toast_contents : List (ToastKind × ℕ)
  toasts : List Toast
  progress_bar_color : Color32
  progress_bar_width : ℚ
  progress_bar_outline_color : Color32
deriving DecidableEq

/-- Toasts::new from src/lib.rs. -/
def Toasts.new : Toasts :=
  { id := "__toasts",
    anchor := ⟨0, 0⟩,
    direction := .TopDown,
    align_to_end := false,
    custom_toast_contents := [],
    toasts := [],
    progress_bar_color := Color32.DARK_GREEN,
    progress_bar_width := 0,
    progress_bar_outline_color := Color32.LIGHT_GRAY }

/-- Toasts::add from src/lib.rs: push onto the pending list. -/
def Toasts.add (self : Toasts) (toast : Toast) : Toasts :=
  { self with toasts := self.toasts ++ [toast] }

/-- Toasts::info from src/lib.rs. -/
def Toasts.info (self : Toasts) (text : String) (options : ToastOptions) : Toasts :=
  self.add { text := text, kind := .Info, options := options }

/-- Toasts::warning from src/lib.rs. -/
def Toasts.warning (self : Toasts) (text : String) (options : ToastOptions) : Toasts :=
  self.add { text := text, kind := .Warning, options := options }

/-- Toasts::error from src/lib.rs. -/
def Toasts.error (self : Toasts) (text : String) (options : ToastOptions) : Toasts :=
  self.add { text := text, kind := .Error, options := options }

/-- Toasts::success from src/lib.rs. -/
def Toasts.success (self : Toasts) (text : String) (options : ToastOptions) : Toasts :=
  self.add { text := text, kind := .Success, options := options }

/-- The stacking rectangle computed by Toasts::show (src/lib.rs lines 318-337)
from the direction, the align-to-end flag, the anchor and the screen area. -/
def stackRect (direction : Direction) (align_to_end : Bool) (anchor : Pos2)
    (screen_area : Rect) : Rect :=
  match direction, align_to_end with
  | .LeftToRight, false | .TopDown, false =>
    Rect.from_min_size anchor
      ⟨screen_area.size.x - anchor.x, screen_area.size.y - anchor.y⟩
  | .RightToLeft, true | .BottomUp, true =>
    Rect.from_min_size ⟨0, 0⟩ ⟨anchor.x, anchor.y⟩
  | .BottomUp, false | .LeftToRight, true =>
    Rect.from_min_size ⟨anchor.x, 0⟩ ⟨screen_area.width - anchor.x, anchor.y⟩
  | .RightToLeft, false | .TopDown, true =>
    Rect.from_min_size ⟨0, anchor.y⟩ ⟨anchor.x, screen_area.height - anchor.y⟩

/-- The per-frame context storage keyed by the Toasts id: the persisted toast
list and the persisted area position. -/
structure CtxData where
  stored_toasts : List Toast
  stored_pos : Pos2

/-- The observable outcome of one Toasts::show call: the updated Toasts value,
the updated context storage, and the list of toasts rendered this frame. -/
structure ShowResult where
  toasts_after : Toasts
  data_after : CtxData
  rendered : List Toast

/-- Toasts::show from src/lib.rs lines 291-387. The merged list is the stored
toasts followed by the pending ones; every merged toast is rendered (the
top-left corner of the i-th rendered toast rectangle is `render i`); the
next area position is the fold of posMin over those corners starting from
(f32::MAX, f32::MAX), overwritten by the configured anchor when the merged
list is empty; the survivors of the retain pass are persisted; the pending
list is taken out of self. -/
def Toasts.showFrame (self : Toasts) (ctxData : CtxData) (now : ℚ)
    (render : ℕ → Pos2) : ShowResult :=
  let toasts := ctxData.stored_toasts ++ self.toasts
  let corners := (List.range toasts.length).map render
  let next_area_pos :=
    if toasts.isEmpty then self.anchor
    else corners.foldl posMin ⟨fMAX, fMAX⟩
  let survivors := toasts.filter (fun t => retainPred t now)
  { toasts_after := { self with toasts := [] },
    data_after := { stored_toasts := survivors, stored_pos := next_area_pos },
    rendered := toasts }

/-- Iterated frames: each frame runs Toasts::show with its own current time
and its own rendered corner positions, threading the Toasts value and the
context storage. -/
def showFrames (self : Toasts) (ctxData : CtxData)
    (frames : List (ℚ × (ℕ → Pos2))) : Toasts × CtxData :=
  frames.foldl
    (fun st fr =>
      let r := Toasts.showFrame st.1 st.2 fr.1 fr.2
      (r.toasts_after, r.data_after))
    (self, ctxData)

/-- A concrete toast list used by witnesses: one never-expiring info toast. -/
def wToast : Toast := ⟨.Info, "a", ⟨true, none, none⟩⟩

/-- A concrete Toasts value with one pending toast, used by witnesses. -/
def wToasts : Toasts := { Toasts.new with toasts := [wToast] }

/-- A concrete empty context storage, used by witnesses. -/
def wCtx : CtxData := ⟨[], ⟨0, 0⟩⟩

/-- A concrete render function placing every toast at (1, 2), used by
witnesses. -/
def wRender : ℕ → Pos2 := fun _ => ⟨1, 2⟩

end EguiToast

namespace EguiToast

/-- The retain predicate holds exactly when expires_at is unset or strictly in
the future. -/
theorem retainPred_true_iff (t : Toast) (now : ℚ) :
    retainPred t now = true ↔
      t.options.expires_at = none ∨
        ∃ e, t.options.expires_at = some e ∧ now < e := by
  cases h : t.options.expires_at with
  | none => simp [retainPred, h, Option.filter]
  | some e => simp [retainPred, h, Option.filter, not_le]

/-- A toast with unset expiry stays in the persisted storage over any sequence
of frames, as long as it starts out stored. -/
theorem mem_stored_of_expires_none (t : Toast)
    (hnone : t.options.expires_at = none) :
    ∀ (frames : List (ℚ × (ℕ → Pos2))) (s : Toasts) (d : CtxData),
      t ∈ d.stored_toasts → t ∈ (showFrames s d frames).2.stored_toasts := by
  intro frames
  induction frames with
  | nil => intro s d h; simpa [showFrames] using h
  | cons fr fs ih =>
    intro s d h
    have hstep : t ∈ ((Toasts.showFrame s d fr.1 fr.2).data_after).stored_toasts := by
      simp only [Toasts.showFrame, List.mem_filter]
      exact ⟨List.mem_append_left _ h, by simp [retainPred, hnone, Option.filter]⟩
    have : showFrames s d (fr :: fs) =
        showFrames (Toasts.showFrame s d fr.1 fr.2).toasts_after
          (Toasts.showFrame s d fr.1 fr.2).data_after fs := by
      simp [showFrames]
    rw [this]
    exact ih _ _ hstep

end EguiToast

namespace EguiToast

/-- Claim C7: every ToastOptions produced by with_duration, and by the From
Duration conversion used by the convenience constructors, satisfies the
invariant that a set expires_at implies a set created_at. -/
theorem c7_with_duration_invariant (now : ℚ) (duration : Option ℚ) (d : ℚ) :
    ((ToastOptions.with_duration now duration).expires_at.isSome = true →
      (ToastOptions.with_duration now duration).created_at.isSome = true) ∧
    ((ToastOptions.fromDuration now d).expires_at.isSome = true →
      (ToastOptions.fromDuration now d).created_at.isSome = true) :=
  ⟨fun _ => rfl, fun _ => rfl⟩

/-- Claim C7 witness at a concrete duration. -/
theorem c7_witness :
    (ToastOptions.with_duration 0 (some 5)).created_at.isSome = true ∧
    (ToastOptions.fromDuration 0 5).created_at.isSome = true :=
  ⟨(c7_with_duration_invariant 0 (some 5) 5).1 rfl,
   (c7_with_duration_invariant 0 (some 5) 5).2 rfl⟩

/-- Claim C8: Toasts::add appends exactly the given toast at the end of the
pending list, leaving all earlier entries unchanged, and each per-kind
convenience constructor equals add of a toast of the corresponding kind with
the given text and options. -/
theorem c8_add_appends (self : Toasts) (t : Toast) (text : String)
    (options : ToastOptions) :
    (self.add t).toasts = self.toasts ++ [t] ∧
    self.info text options = self.add ⟨.Info, text, options⟩ ∧
    self.warning text options = self.add ⟨.Warning, text, options⟩ ∧
    self.error text options = self.add ⟨.Error, text, options⟩ ∧
    self.success text options = self.add ⟨.Success, text, options⟩ :=
  ⟨rfl, rfl, rfl, rfl, rfl⟩

/-- Claim C10: Toasts::show empties the pending list of the instance (survivors
live only in the context storage) and leaves every configuration field
unchanged. -/
theorem c10_show_frame_effects (self : Toasts) (ctxData : CtxData) (now : ℚ)
    (render : ℕ → Pos2) :
    (self.showFrame ctxData now render).toasts_after.toasts = [] ∧
    (self.showFrame ctxData now render).toasts_after.id = self.id ∧
    (self.showFrame ctxData now render).toasts_after.anchor = self.anchor ∧
    (self.showFrame ctxData now render).toasts_after.direction = self.direction ∧
    (self.showFrame ctxData now render).toasts_after.align_to_end = self.align_to_end ∧
    (self.showFrame ctxData now render).toasts_after.progress_bar_color =
      self.progress_bar_color ∧
    (self.showFrame ctxData now render).toasts_after.progress_bar_width =
      self.progress_bar_width ∧
    (self.showFrame ctxData now render).toasts_after.progress_bar_outline_color =
      self.progress_bar_outline_color ∧
    (self.showFrame ctxData now render).toasts_after.custom_toast_contents =
      self.custom_toast_contents :=
  ⟨rfl, rfl, rfl, rfl, rfl, rfl, rfl, rfl, rfl⟩

/-- Claim C2: after one Toasts::show at time now, a toast of the merged list is
persisted for the next frame exactly when its expires_at is unset or strictly
in the future; a toast with expires_at strictly in the past is pruned by that
frame; a toast with unset expires_at survives any number of frames. -/
theorem c2_retention (self : Toasts) (ctxData : CtxData) (now : ℚ)
    (render : ℕ → Pos2) (t : Toast) :
    (t ∈ (self.showFrame ctxData now render).data_after.stored_toasts ↔
      t ∈ ctxData.stored_toasts ++ self.toasts ∧
        (t.options.expires_at = none ∨
          ∃ e, t.options.expires_at = some e ∧ now < e)) ∧
    ((∃ e, t.options.expires_at = some e ∧ e < now) →
      t ∉ (self.showFrame ctxData now render).data_after.stored_toasts) ∧
    (t.options.expires_at = none → t ∈ ctxData.stored_toasts →
      ∀ frames : List (ℚ × (ℕ → Pos2)),
        t ∈ (showFrames self ctxData frames).2.stored_toasts) := by
  have hmem : t ∈ (self.showFrame ctxData now render).data_after.stored_toasts ↔
      t ∈ ctxData.stored_toasts ++ self.toasts ∧
        (t.options.expires_at = none ∨
          ∃ e, t.options.expires_at = some e ∧ now < e) := by
    simp only [Toasts.showFrame, List.mem_filter, retainPred_true_iff]
  refine ⟨hmem, ?_, ?_⟩
  · rintro ⟨e, he, helt⟩ hin
    rcases (hmem.mp hin).2 with hnone | ⟨e2, he2, hlt⟩
    · rw [he] at hnone; cases hnone
    · rw [he] at he2
      cases he2
      exact absurd hlt (not_lt.mpr (le_of_lt helt))
  · intro hnone hin frames
    exact mem_stored_of_expires_none t hnone frames self ctxData hin

/-- Claim C2 witness: a toast expiring at 5 is pruned at time 10, one with no
expiry survives the same frame and any later sequence of frames. -/
theorem c2_witness :
    ((⟨.Info, "a", ⟨true, some 5, some 0⟩⟩ : Toast) ∉
      ((Toasts.new).showFrame
        ⟨[⟨.Info, "a", ⟨true, some 5, some 0⟩⟩, ⟨.Info, "b", ⟨true, none, none⟩⟩],
          ⟨0, 0⟩⟩ 10 (fun _ => ⟨0, 0⟩)).data_after.stored_toasts) ∧
    ((⟨.Info, "b", ⟨true, none, none⟩⟩ : Toast) ∈
      (showFrames Toasts.new
        ⟨[⟨.Info, "a", ⟨true, some 5, some 0⟩⟩, ⟨.Info, "b", ⟨true, none, none⟩⟩],
          ⟨0, 0⟩⟩ [(10, fun _ => ⟨0, 0⟩), (20, fun _ => ⟨0, 0⟩)]).2.stored_toasts) := by
  constructor
  · exact (c2_retention Toasts.new
      ⟨[⟨.Info, "a", ⟨true, some 5, some 0⟩⟩, ⟨.Info, "b", ⟨true, none, none⟩⟩], ⟨0, 0⟩⟩
      10 (fun _ => ⟨0, 0⟩) ⟨.Info, "a", ⟨true, some 5, some 0⟩⟩).2.1
      ⟨5, rfl, by rfl⟩
  · exact (c2_retention Toasts.new
      ⟨[⟨.Info, "a", ⟨true, some 5, some 0⟩⟩, ⟨.Info, "b", ⟨true, none, none⟩⟩], ⟨0, 0⟩⟩
      10 (fun _ => ⟨0, 0⟩) ⟨.Info, "b", ⟨true, none, none⟩⟩).2.2 rfl
      (by simp) [(10, fun _ => ⟨0, 0⟩), (20, fun _ => ⟨0, 0⟩)]

end EguiToast

namespace EguiToast

/-- Claim C3: for a toast with both timestamps set (and a non-degenerate
lifetime), the countdown fraction equals (expires_at - now) divided by
(expires_at - created_at); at now = created_at it is exactly 1, at
now = expires_at it is 0, and it strictly decreases as now increases. -/
theorem c3_progress (options : ToastOptions) (e c now : ℚ)
    (he : options.expires_at = some e) (hc : options.created_at = some c)
    (hce : c < e) :
    remainingTime options now = (e - now) / (e - c) ∧
    remainingTime options c = 1 ∧
    remainingTime options e = 0 ∧
    (∀ n1 n2 : ℚ, n1 < n2 →
      remainingTime options n2 < remainingTime options n1) := by
  have hne : e - c ≠ 0 := sub_ne_zero.mpr (ne_of_gt hce)
  have hpos : (0 : ℚ) < e - c := sub_pos.mpr hce
  refine ⟨?_, ?_, ?_, ?_⟩
  · simp [remainingTime, he, hc]
  · simp only [remainingTime, he, hc]
    exact div_self hne
  · simp [remainingTime, he, hc]
  · intro n1 n2 h12
    simp only [remainingTime, he, hc]
    have hnum : e - n2 < e - n1 := by linarith
    exact (div_lt_div_iff_of_pos_right hpos).mpr hnum

end EguiToast

namespace EguiToast

/-- Claim C3 witness: with creation at 0 and expiry at 5, the fraction is 1 at
time 0 and 0 at time 5. -/
theorem c3_witness :
    remainingTime ⟨true, some 5, some 0⟩ 0 = 1 ∧
    remainingTime ⟨true, some 5, some 0⟩ 5 = 0 :=
  ⟨(c3_progress ⟨true, some 5, some 0⟩ 5 0 0 rfl rfl (by rfl)).2.1,
   (c3_progress ⟨true, some 5, some 0⟩ 5 0 0 rfl rfl (by rfl)).2.2.1⟩

/-- Claim C4: Toast::close sets expires_at to the current time, so every prune
pass at a time at or after the close time drops the toast; closing changes
nothing else about the toast, so removal happens only at the next prune. -/
theorem c4_close (t : Toast) (tclose : ℚ) :
    (t.close tclose).options.expires_at = some tclose ∧
    (∀ now2 : ℚ, tclose ≤ now2 → retainPred (t.close tclose) now2 = false) ∧
    (∀ (ts : List Toast) (now2 : ℚ), tclose ≤ now2 →
      t.close tclose ∉ pruneToasts ts now2) ∧
    (t.close tclose).kind = t.kind ∧
    (t.close tclose).text = t.text ∧
    (t.close tclose).options.show_icon = t.options.show_icon ∧
    (t.close tclose).options.created_at = t.options.created_at := by
  have hretain : ∀ now2 : ℚ, tclose ≤ now2 →
      retainPred (t.close tclose) now2 = false := by
    intro now2 h
    simp [retainPred, Toast.close, Option.filter, h]
  refine ⟨rfl, hretain, ?_, rfl, rfl, rfl, rfl⟩
  intro ts now2 h hin
  have := (List.mem_filter.mp hin).2
  rw [hretain now2 h] at this
  cases this

/-- Claim C4 witness: a never-expiring toast closed at time 3 is dropped by the
prune pass at time 3. -/
theorem c4_witness :
    (Toast.close ⟨.Info, "a", ⟨true, none, none⟩⟩ 3).options.expires_at = some 3 ∧
    Toast.close ⟨.Info, "a", ⟨true, none, none⟩⟩ 3 ∉
      pruneToasts [Toast.close ⟨.Info, "a", ⟨true, none, none⟩⟩ 3] 3 :=
  ⟨(c4_close ⟨.Info, "a", ⟨true, none, none⟩⟩ 3).1,
   (c4_close ⟨.Info, "a", ⟨true, none, none⟩⟩ 3).2.2.1
     [Toast.close ⟨.Info, "a", ⟨true, none, none⟩⟩ 3] 3 (by rfl)⟩

end EguiToast

namespace EguiToast

/-- Claim C1 counterexample: for a viewport whose origin is not (0,0), the
stacking rectangle computed for (BottomUp, align to end) is not a
sub-rectangle of the viewport — the code always splits relative to the origin
(0,0) and the viewport size, not the viewport corners. -/
theorem c1_counterexample :
    ¬ (stackRect .BottomUp true ⟨12, 12⟩ ⟨⟨10, 10⟩, ⟨20, 20⟩⟩).isSubRectOf
        ⟨⟨10, 10⟩, ⟨20, 20⟩⟩ := by
  intro h
  have h1 := h.1
  norm_num [stackRect, Rect.from_min_size, Rect.isSubRectOf] at h1

/-- Claim C1 (amended): when the viewport has origin (0,0) and the anchor lies
inside it, the stacking rectangle of each of the four (direction, align to
end) combinations is a valid sub-rectangle of the viewport split exactly at
the anchor coordinates: (TopDown or LeftToRight, not aligned) spans from the
anchor to the far corner; (BottomUp or RightToLeft, aligned) spans from the
origin to the anchor; (BottomUp, not aligned) and (LeftToRight, aligned) span
right of the anchor x and above the anchor y; (RightToLeft, not aligned) and
(TopDown, aligned) span left of the anchor x and below the anchor y. -/
theorem c1_amended (anchor : Pos2) (screen : Rect) (d : Direction) (a : Bool)
    (h0 : screen.min = ⟨0, 0⟩)
    (hx1 : 0 ≤ anchor.x) (hx2 : anchor.x ≤ screen.max.x)
    (hy1 : 0 ≤ anchor.y) (hy2 : anchor.y ≤ screen.max.y) :
    (stackRect d a anchor screen).isValid ∧
    (stackRect d a anchor screen).isSubRectOf screen ∧
    ((d = .TopDown ∨ d = .LeftToRight) ∧ a = false →
      stackRect d a anchor screen = ⟨anchor, screen.max⟩) ∧
    ((d = .BottomUp ∨ d = .RightToLeft) ∧ a = true →
      stackRect d a anchor screen = ⟨⟨0, 0⟩, anchor⟩) ∧
    ((d = .BottomUp ∧ a = false) ∨ (d = .LeftToRight ∧ a = true) →
      stackRect d a anchor screen = ⟨⟨anchor.x, 0⟩, ⟨screen.max.x, anchor.y⟩⟩) ∧
    ((d = .RightToLeft ∧ a = false) ∨ (d = .TopDown ∧ a = true) →
      stackRect d a anchor screen = ⟨⟨0, anchor.y⟩, ⟨anchor.x, screen.max.y⟩⟩) := by
  obtain ⟨⟨mx, my⟩, ⟨Mx, My⟩⟩ := screen
  obtain ⟨ax, ay⟩ := anchor
  simp only [Rect.mk.injEq, Pos2.mk.injEq] at h0
  obtain ⟨hm1, hm2⟩ := h0
  subst hm1
  subst hm2
  simp only at hx1 hx2 hy1 hy2
  cases d <;> cases a <;>
    simp only [stackRect, Rect.from_min_size, Rect.isValid, Rect.isSubRectOf,
      Rect.size, Rect.width, Rect.height, Rect.mk.injEq, Pos2.mk.injEq] <;>
    refine ⟨⟨by linarith, by linarith⟩, ⟨by linarith, by linarith, by linarith,
      by linarith⟩, ?_, ?_, ?_, ?_⟩ <;>
    intro h <;>
    first
      | (exact ⟨trivial, by linarith, by linarith⟩)
      | simp at h

end EguiToast

namespace EguiToast

/-- Claim C1 (amended) witness at the TopDown, not-aligned case on a concrete
anchor and viewport. -/
theorem c1_amended_witness :
    (stackRect .TopDown false ⟨3, 4⟩ ⟨⟨0, 0⟩, ⟨10, 10⟩⟩).isValid ∧
    (stackRect .TopDown false ⟨3, 4⟩ ⟨⟨0, 0⟩, ⟨10, 10⟩⟩).isSubRectOf
      ⟨⟨0, 0⟩, ⟨10, 10⟩⟩ ∧
    stackRect .TopDown false ⟨3, 4⟩ ⟨⟨0, 0⟩, ⟨10, 10⟩⟩ = ⟨⟨3, 4⟩, ⟨10, 10⟩⟩ := by
  have h := c1_amended ⟨3, 4⟩ ⟨⟨0, 0⟩, ⟨10, 10⟩⟩ .TopDown false rfl
    (by rfl) (by rfl) (by rfl) (by rfl)
  exact ⟨h.1, h.2.1, h.2.2.1 ⟨Or.inl rfl, rfl⟩⟩

/-- The posMin fold is bounded by its initial accumulator. -/
theorem foldl_posMin_le_init (l : List Pos2) : ∀ acc : Pos2,
    (l.foldl posMin acc).x ≤ acc.x ∧ (l.foldl posMin acc).y ≤ acc.y := by
  induction l with
  | nil => intro acc; exact ⟨le_refl _, le_refl _⟩
  | cons p l ih =>
    intro acc
    have h := ih (posMin acc p)
    exact ⟨le_trans h.1 (min_le_left _ _), le_trans h.2 (min_le_left _ _)⟩

/-- The posMin fold is a componentwise lower bound of every list element. -/
theorem foldl_posMin_le_mem (l : List Pos2) : ∀ (acc p : Pos2), p ∈ l →
    (l.foldl posMin acc).x ≤ p.x ∧ (l.foldl posMin acc).y ≤ p.y := by
  induction l with
  | nil => intro acc p hp; cases hp
  | cons q l ih =>
    intro acc p hp
    rcases List.mem_cons.mp hp with h | h
    · subst h
      have h2 := foldl_posMin_le_init l (posMin acc p)
      exact ⟨le_trans h2.1 (min_le_right _ _), le_trans h2.2 (min_le_right _ _)⟩
    · exact ih (posMin acc q) p h

/-- The x coordinate of the posMin fold is the initial x or the x of some list
element. -/
theorem foldl_posMin_attained_x (l : List Pos2) : ∀ acc : Pos2,
    (l.foldl posMin acc).x = acc.x ∨ ∃ p ∈ l, (l.foldl posMin acc).x = p.x := by
  induction l with
  | nil => intro acc; exact Or.inl rfl
  | cons q l ih =>
    intro acc
    rcases ih (posMin acc q) with h | ⟨p, hp, he⟩
    · rcases min_choice acc.x q.x with hm | hm
      · exact Or.inl (h.trans hm)
      · exact Or.inr ⟨q, List.mem_cons_self _ _, h.trans hm⟩
    · exact Or.inr ⟨p, List.mem_cons_of_mem _ hp, he⟩

/-- The y coordinate of the posMin fold is the initial y or the y of some list
element. -/
theorem foldl_posMin_attained_y (l : List Pos2) : ∀ acc : Pos2,
    (l.foldl posMin acc).y = acc.y ∨ ∃ p ∈ l, (l.foldl posMin acc).y = p.y := by
  induction l with
  | nil => intro acc; exact Or.inl rfl
  | cons q l ih =>
    intro acc
    rcases ih (posMin acc q) with h | ⟨p, hp, he⟩
    · rcases min_choice acc.y q.y with hm | hm
      · exact Or.inl (h.trans hm)
      · exact Or.inr ⟨q, List.mem_cons_self _ _, h.trans hm⟩
    · exact Or.inr ⟨p, List.mem_cons_of_mem _ hp, he⟩

end EguiToast

namespace EguiToast

/-- Claim C5: the area position persisted for the next frame is the configured
anchor when no toasts were rendered, and otherwise the componentwise minimum
of the top-left corners of the rendered toast rectangles (each corner being a
representable coordinate, hence at most f32::MAX): it is a lower bound of all
corners and each of its coordinates is attained by some corner. -/
theorem c5_next_anchor (self : Toasts) (ctxData : CtxData) (now : ℚ)
    (render : ℕ → Pos2) :
    (ctxData.stored_toasts ++ self.toasts = [] →
      (self.showFrame ctxData now render).data_after.stored_pos = self.anchor) ∧
    (ctxData.stored_toasts ++ self.toasts ≠ [] →
      (∀ p ∈ (List.range (ctxData.stored_toasts ++ self.toasts).length).map render,
          p.x ≤ fMAX ∧ p.y ≤ fMAX) →
      (∀ p ∈ (List.range (ctxData.stored_toasts ++ self.toasts).length).map render,
          (self.showFrame ctxData now render).data_after.stored_pos.x ≤ p.x ∧
          (self.showFrame ctxData now render).data_after.stored_pos.y ≤ p.y) ∧
      (∃ p ∈ (List.range (ctxData.stored_toasts ++ self.toasts).length).map render,
          (self.showFrame ctxData now render).data_after.stored_pos.x = p.x) ∧
      (∃ p ∈ (List.range (ctxData.stored_toasts ++ self.toasts).length).map render,
          (self.showFrame ctxData now render).data_after.stored_pos.y = p.y)) := by
  constructor
  · intro h
    simp [Toasts.showFrame, h]
  · intro h hbound
    have hpos : (self.showFrame ctxData now render).data_after.stored_pos =
        ((List.range (ctxData.stored_toasts ++ self.toasts).length).map
          render).foldl posMin ⟨fMAX, fMAX⟩ := by
      simp [Toasts.showFrame, List.isEmpty_iff, h]
    have hne : (List.range (ctxData.stored_toasts ++ self.toasts).length).map
        render ≠ [] := by
      simp only [ne_eq, List.map_eq_nil_iff, List.range_eq_nil]
      intro hlen
      exact h (List.eq_nil_of_length_eq_zero hlen)
    obtain ⟨p0, hp0⟩ := List.exists_mem_of_ne_nil _ hne
    rw [hpos]
    refine ⟨fun p hp => foldl_posMin_le_mem _ _ p hp, ?_, ?_⟩
    · rcases foldl_posMin_attained_x
        ((List.range (ctxData.stored_toasts ++ self.toasts).length).map render)
        ⟨fMAX, fMAX⟩ with hA | ⟨p, hp, he⟩
      · refine ⟨p0, hp0, le_antisymm ?_ ?_⟩
        · exact (foldl_posMin_le_mem _ _ p0 hp0).1
        · rw [hA]; exact (hbound p0 hp0).1
      · exact ⟨p, hp, he⟩
    · rcases foldl_posMin_attained_y
        ((List.range (ctxData.stored_toasts ++ self.toasts).length).map render)
        ⟨fMAX, fMAX⟩ with hA | ⟨p, hp, he⟩
      · refine ⟨p0, hp0, le_antisymm ?_ ?_⟩
        · exact (foldl_posMin_le_mem _ _ p0 hp0).2
        · rw [hA]; exact (hbound p0 hp0).2
      · exact ⟨p, hp, he⟩

end EguiToast
namespace EguiToast

/-- Concrete corner bound used by the claim C5 witness. -/
theorem corner_coords_le_fMAX : (1 : ℚ) ≤ fMAX ∧ (2 : ℚ) ≤ fMAX := by
  norm_num [fMAX]

/-- Claim C5 witness: one rendered toast whose rectangle has top-left corner
(1, 2); the persisted position is bounded by and attains that corner. -/
theorem c5_witness :
    (∀ p ∈ (List.range (wCtx.stored_toasts ++ wToasts.toasts).length).map wRender,
      (Toasts.showFrame wToasts wCtx 0 wRender).data_after.stored_pos.x ≤ p.x ∧
      (Toasts.showFrame wToasts wCtx 0 wRender).data_after.stored_pos.y ≤ p.y) ∧
    (∃ p ∈ (List.range (wCtx.stored_toasts ++ wToasts.toasts).length).map wRender,
      (Toasts.showFrame wToasts wCtx 0 wRender).data_after.stored_pos.x = p.x) ∧
    (∃ p ∈ (List.range (wCtx.stored_toasts ++ wToasts.toasts).length).map wRender,
      (Toasts.showFrame wToasts wCtx 0 wRender).data_after.stored_pos.y = p.y) := by
  refine (c5_next_anchor wToasts wCtx 0 wRender).2 (by simp [wCtx, wToasts]) ?_
  intro p hp
  simp only [List.mem_map] at hp
  obtain ⟨i, _, hpe⟩ := hp
  rw [← hpe]
  exact ⟨corner_coords_le_fMAX.1, corner_coords_le_fMAX.2⟩

end EguiToast

namespace EguiToast

/-- Claim C6 counterexample: for a toast with expires_at set and created_at
absent, add_progress_bar_layer does not skip rendering — it emits a non-empty
shape list (the outline and the zero-progress bar). -/
theorem c6_counterexample :
    add_progress_bar_layer ⟨.Info, "x", ⟨true, some 5, none⟩⟩ 0
      ⟨⟨0, 0⟩, ⟨100, 50⟩⟩ Color32.DARK_GREEN 4 Color32.LIGHT_GRAY ≠ [] := by
  simp [add_progress_bar_layer]

/-- Claim C6 (amended): add_progress_bar_layer skips rendering exactly when
expires_at is unset; when expires_at is set but created_at is absent it still
emits the outline and the filled bar, with remaining time 0, so the filled
bar collapses to zero width at the left margin; and a zero-duration expiry is
not an error — the toast simply fails the retain predicate at every time from
its creation on, with no operation failing. -/
theorem c6_amended (toast : Toast) (now : ℚ) (rect : Rect) (col : Color32)
    (w : ℚ) (ocol : Color32) (kind : ToastKind) (text : String)
    (now0 now2 : ℚ) :
    (add_progress_bar_layer toast now rect col w ocol = [] ↔
      toast.options.expires_at = none) ∧
    (toast.options.expires_at.isSome = true → toast.options.created_at = none →
      remainingTime toast.options now = 0 ∧
      ∃ outline bar : RectShapeM,
        add_progress_bar_layer toast now rect col w ocol = [outline, bar] ∧
        bar.rect.min.x = rect.min.x + 10 ∧ bar.rect.max.x = rect.min.x + 10) ∧
    (now0 ≤ now2 →
      retainPred ⟨kind, text, ToastOptions.with_duration now0 (some 0)⟩ now2 =
        false) := by
  refine ⟨?_, ?_, ?_⟩
  · cases h : toast.options.expires_at with
    | none => simp [add_progress_bar_layer, h]
    | some e => simp [add_progress_bar_layer, h]
  · intro hs hc
    cases h : toast.options.expires_at with
    | none => rw [h] at hs; cases hs
    | some e =>
      have hrt : remainingTime toast.options now = 0 := by
        simp [remainingTime, h, hc]
      refine ⟨hrt, ?_⟩
      have hx2 : rect.max.x - 10 - (rect.width - 20) * (1 - remainingTime toast.options now) =
          rect.min.x + 10 := by
        rw [hrt, Rect.width]; ring
      refine ⟨⟨Rect.from_two_pos ⟨rect.min.x + 10, rect.max.y - 2 - w⟩
          ⟨rect.max.x - 10, rect.max.y - 2⟩, w / 2, ocol⟩,
        ⟨Rect.from_two_pos ⟨rect.min.x + 10, rect.max.y - 2 - w⟩
          ⟨rect.max.x - 10 - (rect.width - 20) * (1 - remainingTime toast.options now),
            rect.max.y - 2⟩, w / 2, col⟩, ?_, ?_, ?_⟩
      · simp [add_progress_bar_layer, h]
      · simp only [Rect.from_two_pos, hx2, min_self]
      · simp only [Rect.from_two_pos, hx2, max_self]
  · intro h
    simpa [retainPred, ToastOptions.with_duration, ToastOptions.default,
      Option.filter] using h

/-- Claim C6 (amended) witness: a concrete toast with expiry 5 and no creation
time has remaining time 0, and a zero-duration toast created at 0 fails the
retain predicate at time 1. -/
theorem c6_witness :
    remainingTime ⟨true, some 5, none⟩ 0 = 0 ∧
    retainPred ⟨.Info, "x", ToastOptions.with_duration 0 (some 0)⟩ 1 = false := by
  have h := c6_amended ⟨.Info, "x", ⟨true, some 5, none⟩⟩ 0
    ⟨⟨0, 0⟩, ⟨100, 50⟩⟩ Color32.DARK_GREEN 4 Color32.LIGHT_GRAY .Info "x" 0 1
  exact ⟨(h.2.1 rfl rfl).1, h.2.2 (by rfl)⟩

/-- Claim C9: the wasm Instant subtraction asserts a non-negative difference,
but a toast whose expiry is already past at render time is still rendered
(the merged list is rendered before the retain pass), and for it
expires_at minus now is negative: the assertion fails. Concretely, a toast
created at 0 expiring at 100 is in the rendered list of a frame at time 200,
where the wasm subtraction 100 - 200 trips the assertion (modelled as none),
so the wasm progress computation fails rather than yielding a fraction. -/
theorem c9_wasm_assert_failure :
    (Toasts.showFrame
        { Toasts.new with toasts := [⟨.Info, "x", ⟨true, some 100, some 0⟩⟩] }
        ⟨[], ⟨0, 0⟩⟩ 200 (fun _ => ⟨0, 0⟩)).rendered =
      [⟨.Info, "x", ⟨true, some 100, some 0⟩⟩] ∧
    (100 : ℚ) < 200 ∧
    wasmInstantSub 100 200 = none ∧
    wasmRemainingTime ⟨true, some 100, some 0⟩ 200 = none := by
  refine ⟨rfl, by norm_num, ?_, ?_⟩
  · norm_num [wasmInstantSub]
  · norm_num [wasmRemainingTime, wasmInstantSub]

end EguiToast
